import Mathlib

/-!
Verification development for the GitHub yearbook contribution-aggregation
pipeline (backend/app/api/routes.py and backend/app/services/github.py).

Shallow embedding conventions:
  * Calendar dates are represented by their absolute day number (days since
    1970-01-01), computed by daysFromCivil.  The ISO date strings used by the
    Python code are totally ordered exactly like their day numbers, and
    datetime subtraction (cur - prev).days == 1 corresponds to day-number
    difference 1, so this encoding is order- and arithmetic-faithful.
  * Python dicts keyed by date/name are modelled as association lists kept in
    insertion order (new keys appended at the end), matching CPython dict
    iteration order.
  * Python sorted(..., key=k) and sorted(..., key=k, reverse=True) are stable;
    they are modelled by List.insertionSort with the relations
    (fun a b => k a <= k b) and (fun a b => k b <= k a), which place an
    earlier element before later elements with an equal key, i.e. are stable.
  * Python floats for language percentages are modelled by exact rationals.
-/

namespace Yearbook

/-- Absolute day number of a calendar date (days since 1970-01-01), the
standard civil-from-days algorithm.  Used to embed the ISO date strings and
datetime values of the Python code as integers. -/
def daysFromCivil (y : Int) (m d : Nat) : Int :=
  let yAdj : Int := if m ≤ 2 then y - 1 else y
  let era : Int := (if 0 ≤ yAdj then yAdj else yAdj - 399) / 400
  let yoe : Int := yAdj - era * 400
  let mp : Int := (m : Int) + (if 2 < m then -3 else 9)
  let doy : Int := (153 * mp + 2) / 5 + (d : Int) - 1
  let doe : Int := yoe * 365 + yoe / 4 - yoe / 100 + doy
  era * 146097 + doe - 719468

/-- One entry of the dailyContributions series: a calendar day (absolute day
number) and its contribution count. -/
structure DayCount where
  date : Int
  count : Nat
deriving DecidableEq, Repr

/-- The active days of a daily series (routes.py line 343:
active_days = [d for d in daily if d["count"] > 0]). -/
def activeDays (daily : List DayCount) : List DayCount :=
  daily.filter fun d => 0 < d.count

/-- Dates of the active days.  routes.py line 361 builds the set of date
strings; list membership models set membership. -/
def activeDates (daily : List DayCount) : List Int :=
  (activeDays daily).map DayCount.date

/-- The longest-streak scan of routes.py lines 345-358: fold over the
date-sorted active days carrying the accumulators longest, streak and the
previously seen date; a gap of exactly one day extends the streak, anything
else flushes it and restarts at 1; the final open run is flushed at the end. -/
def streakLoop : List Int → Nat → Nat → Option Int → Nat
  | [], longest, streak, _ => max longest streak
  | cur :: rest, longest, streak, none =>
      streakLoop rest (max longest streak) 1 (some cur)
  | cur :: rest, longest, streak, some p =>
      if cur - p = 1 then streakLoop rest longest (streak + 1) (some cur)
      else streakLoop rest (max longest streak) 1 (some cur)

/-- Longest streak of a daily series (routes.py lines 345-358).  The code
sorts the active-day dicts by their date and then only reads the dates, which
is the same list of dates as sorting the dates themselves. -/
def longestStreak (daily : List DayCount) : Nat :=
  streakLoop (List.insertionSort (fun a b => a ≤ b) (activeDates daily)) 0 0 none

/-- Backward walk counting consecutive active days starting at day d and
stepping to the previous day, stopping at the first inactive day, taking at
most fuel steps.  This is the body of the loop of routes.py lines 363-368 for
the iterations after the first one. -/
def runDown (active : List Int) : Int → Nat → Nat
  | _, 0 => 0
  | d, fuel + 1 => if d ∈ active then runDown active (d - 1) fuel + 1 else 0

/-- Current streak anchored at the end day endD (routes.py lines 362-368).
The Python loop runs i = 0..364 over d = endD - i and breaks at the first
inactive day with i > 0; so an inactive endD (i = 0) is tolerated, and the
remaining 364 iterations count consecutive active days from endD - 1 down. -/
def currentStreakFrom (active : List Int) (endD : Int) : Nat :=
  if endD ∈ active then 1 + runDown active (endD - 1) 364
  else runDown active (endD - 1) 364

/-- Current streak as computed by get_yearbook_stats: anchored at December 31
of the queried year (routes.py line 362: end_d = datetime(year, 12, 31)). -/
def currentStreak (daily : List DayCount) (year : Int) : Nat :=
  currentStreakFrom (activeDates daily) (daysFromCivil year 12 31)

/-- The concrete daily-contributions scenario of the specification:
counts 1,1,0,1,1,1 on 2024-01-01 .. 2024-01-06. -/
def exampleDaily : List DayCount :=
  [⟨daysFromCivil 2024 1 1, 1⟩, ⟨daysFromCivil 2024 1 2, 1⟩,
   ⟨daysFromCivil 2024 1 3, 0⟩, ⟨daysFromCivil 2024 1 4, 1⟩,
   ⟨daysFromCivil 2024 1 5, 1⟩, ⟨daysFromCivil 2024 1 6, 1⟩]

/-- Length of the run of consecutive active days ending at d, walked with
enough fuel never to truncate: a run consists of distinct days, all members
of active, so its length is at most active.length. -/
def downRunFull (active : List Int) (d : Int) : Nat :=
  runDown active d (active.length + 1)

/-- Specification-side definition of the longest streak, following the
specification text: the maximum length over maximal runs of
calendar-consecutive active days.  The maximum over all active days of the
run ending at that day equals the maximum over maximal runs, since a maximal
run's length is attained at its last day. -/
def specLongest (active : List Int) : Nat :=
  (active.map (downRunFull active)).foldr max 0

/-! Embedding of backend/app/services/github.py. -/

/-- A point in time: a calendar day (absolute day number) plus the second of
the day.  Models the datetime values parsed from created_at fields. -/
structure Timestamp where
  day : Int
  tod : Nat
deriving DecidableEq, Repr

/-- Seconds since the epoch; datetime comparison in the Python code is
comparison of these values. -/
def Timestamp.toSec (t : Timestamp) : Int :=
  t.day * 86400 + (t.tod : Int)

/-- One element of the public events list consumed by fetch_with_rest_api.
repoName models event["repo"]["name"].split("/")[1] (the repository part of
the full name) and payloadSize models event["payload"].get("size", 0). -/
structure RestEvent where
  type : String
  createdAt : Timestamp
  repoName : String
  payloadSize : Nat
deriving DecidableEq, Repr

/-- A language node of the GraphQL response: languages.edges[].node. -/
structure LangNode where
  name : String
  color : String
deriving DecidableEq, Repr

/-- A language edge of the GraphQL response: languages.edges[], carrying the
byte size of that language in the repository. -/
structure LangEdge where
  size : Nat
  node : LangNode
deriving DecidableEq, Repr

/-- Accumulated per-language statistics before percentages are attached
(the values of lang_map in fetch_with_graphql, lines 188-200). -/
structure LangStat where
  name : String
  color : String
  size : Nat
  repoCount : Nat
deriving DecidableEq, Repr

/-- Per-language statistics with the percentage attached (lines 202-210).
The Python float is modelled as an exact rational. -/
structure LangStatPct where
  name : String
  color : String
  size : Nat
  repoCount : Nat
  percentage : ℚ
deriving DecidableEq, Repr

/-- A repository node of the GraphQL response (viewer.repositories.nodes[]
and commitContributionsByRepository[].repository).  languages models
languages.edges. -/
structure RepoNode where
  name : String
  nameWithOwner : String
  isPrivate : Bool
  stargazerCount : Nat
  forkCount : Nat
  description : Option String
  url : String
  primaryLanguage : Option LangNode
  languages : List LangEdge
deriving DecidableEq, Repr

/-- One day of the GraphQL contribution calendar
(weeks[].contributionDays[]). -/
structure CalendarDay where
  date : Int
  contributionCount : Nat
deriving DecidableEq, Repr

/-- One entry of commitContributionsByRepository: a repository and its
contributions.totalCount. -/
structure CommitContribByRepo where
  repository : RepoNode
  contributionsTotalCount : Nat
deriving DecidableEq, Repr

/-- The contributionsCollection part of the GraphQL response.  weeks models
contributionCalendar.weeks[].contributionDays and calendarTotal models
contributionCalendar.totalContributions. -/
structure ContributionsCollection where
  totalCommitContributions : Nat
  totalPullRequestContributions : Nat
  totalPullRequestReviewContributions : Nat
  totalIssueContributions : Nat
  calendarTotal : Nat
  weeks : List (List CalendarDay)
  commitContributionsByRepository : List CommitContribByRepo
deriving DecidableEq, Repr

/-- An organization node of the GraphQL response. -/
structure Org where
  login : String
  avatarUrl : String
deriving DecidableEq, Repr

/-- The viewer object of the GraphQL response: the data of the account that
owns the supplied token.  repositoriesTotalCount models
repositories.totalCount; the from/to variables of the query only shape this
upstream response, which the embedding takes as input. -/
structure Viewer where
  login : String
  avatarUrl : String
  bio : Option String
  company : Option String
  location : Option String
  followers : Nat
  following : Nat
  repositoriesTotalCount : Nat
  repositories : List RepoNode
  contributionsCollection : ContributionsCollection
  organizations : List Org
deriving DecidableEq, Repr

/-- One repository-contribution dict of the fetch results.  The REST path
only fills repo, count and isPrivate; the remaining keys are absent there and
read back with null/0 defaults, modelled by the default field values. -/
structure RepoContribution where
  repo : String
  fullName : Option String := none
  count : Nat
  isPrivate : Bool
  stars : Nat := 0
  forks : Nat := 0
  language : Option String := none
  description : Option String := none
  url : Option String := none
deriving DecidableEq, Repr

/-- The dict returned by fetch_user_contributions (either path).  Keys that a
path does not produce are read back by routes.py with data.get defaults
(None, 0 or []), modelled by the default field values. -/
structure RawData where
  username : String
  avatarUrl : Option String := none
  bio : Option String := none
  company : Option String := none
  location : Option String := none
  followers : Nat := 0
  following : Nat := 0
  publicRepos : Nat := 0
  privateRepos : Nat := 0
  totalRepos : Nat := 0
  totalContributions : Nat := 0
  totalCommits : Nat := 0
  pullRequests : Nat := 0
  pullRequestReviews : Nat := 0
  issues : Nat := 0
  dailyContributions : List DayCount := []
  repositoryContributions : List RepoContribution := []
  languageStats : List LangStatPct := []
  organizations : List Org := []
deriving DecidableEq, Repr

/-- Python dict insert-or-add: m[k] = m.get(k, 0) + v.  Existing keys are
updated in place keeping their position; a new key is appended at the end,
matching CPython dict insertion order. -/
def bump {α : Type} [DecidableEq α] (m : List (α × Nat)) (k : α) (v : Nat) :
    List (α × Nat) :=
  if m.any fun p => p.1 = k then
    m.map fun p => if p.1 = k then (p.1, p.2 + v) else p
  else
    m ++ [(k, v)]

/-- The filter applied to each event by fetch_with_rest_api lines 265-270:
keep push events whose timestamp lies between start_date 00:00:00 and
end_date 23:59:59 inclusive. -/
def isPushInRange (startDay endDay : Int) (e : RestEvent) : Bool :=
  e.type = "PushEvent" ∧
    startDay * 86400 ≤ e.createdAt.toSec ∧
    e.createdAt.toSec ≤ endDay * 86400 + 86399

/-- One iteration of the event loop of fetch_with_rest_api lines 265-277:
skip events that are not push events in range, otherwise bump daily_map
(keyed by the UTC date of created_at) and repo_map (keyed by repository
name) by the push payload size. -/
def restStep (startDay endDay : Int)
    (maps : List (Int × Nat) × List (String × Nat)) (e : RestEvent) :
    List (Int × Nat) × List (String × Nat) :=
  if isPushInRange startDay endDay e then
    (bump maps.1 e.createdAt.day e.payloadSize,
     bump maps.2 e.repoName e.payloadSize)
  else maps

/-- The event loop of fetch_with_rest_api lines 262-277: one pass over the
events building daily_map and repo_map, both starting empty. -/
def restFold (startDay endDay : Int) (events : List RestEvent) :
    List (Int × Nat) × List (String × Nat) :=
  events.foldl (restStep startDay endDay) ([], [])

/-- fetch_with_rest_api (github.py lines 241-298), as a function of the
public events list the upstream returned.  daily_contributions sorts the
daily map by date ascending (sorted(daily_map.items()), keys distinct);
repo_contributions sorts the repo map by count descending. -/
def fetchWithRestApi (username : String) (startDay endDay : Int)
    (events : List RestEvent) : RawData :=
  let maps := restFold startDay endDay events
  let dailyContributions :=
    (List.insertionSort (fun a b => a.1 ≤ b.1) maps.1).map
      fun p => DayCount.mk p.1 p.2
  let repoContributions :=
    (List.insertionSort (fun a b => b.2 ≤ a.2) maps.2).map
      fun p => { repo := p.1, count := p.2, isPrivate := false : RepoContribution }
  let totalCommits := (maps.1.map fun p => p.2).sum
  { username := username,
    totalContributions := totalCommits,
    totalCommits := totalCommits,
    pullRequests := 0,
    pullRequestReviews := 0,
    issues := 0,
    dailyContributions := dailyContributions,
    repositoryContributions := repoContributions,
    languageStats := [],
    organizations := [] }

/-- One step of the language accumulation of fetch_with_graphql lines
188-200: look the edge's language up in the map, creating a fresh entry
(size 0, repoCount 0, the edge's color) if absent, then add the edge's size
and bump repoCount. -/
def addLangEdge (m : List LangStat) (e : LangEdge) : List LangStat :=
  if m.any fun l => l.name = e.node.name then
    m.map fun l =>
      if l.name = e.node.name then
        { l with size := l.size + e.size, repoCount := l.repoCount + 1 }
      else l
  else
    m ++ [{ name := e.node.name, color := e.node.color, size := e.size,
            repoCount := 1 }]

/-- The lang_map accumulation over all fetched repositories
(fetch_with_graphql lines 188-200), in repository and edge order. -/
def buildLangMap (repos : List RepoNode) : List LangStat :=
  repos.foldl (fun m r => r.languages.foldl addLangEdge m) []

/-- total_size = sum(l["size"] for l in lang_map.values()) or 1
(fetch_with_graphql line 202): a zero total falls back to 1, so the
percentage division never divides by zero. -/
def totalSizeOr1 (m : List LangStat) : Nat :=
  if (m.map LangStat.size).sum = 0 then 1 else (m.map LangStat.size).sum

/-- language_stats of fetch_with_graphql lines 202-210: attach
percentage = size / total_size * 100 to every accumulated language and sort
descending by size (stable, like Python sorted with reverse=True). -/
def languageStats (repos : List RepoNode) : List LangStatPct :=
  let m := buildLangMap repos
  let total := totalSizeOr1 m
  List.insertionSort (fun a b => b.size ≤ a.size)
    (m.map fun l =>
      { name := l.name, color := l.color, size := l.size,
        repoCount := l.repoCount,
        percentage := (l.size : ℚ) / (total : ℚ) * 100 })

/-- fetch_with_graphql (github.py lines 61-238) as a function of the GraphQL
response.  The query asks for the viewer (the token owner); the username
argument of the Python function is never used in the query or the result.
The start/end dates only parameterize the upstream request and are absorbed
into the viewer argument. -/
def fetchWithGraphql (username : String) (viewer : Viewer) : RawData :=
  let allRepos := viewer.repositories
  let publicRepos := allRepos.filter fun r => ¬ r.isPrivate
  let privateRepos := allRepos.filter fun r => r.isPrivate
  let dailyContributions :=
    (viewer.contributionsCollection.weeks.flatten).map
      fun day => DayCount.mk day.date day.contributionCount
  let repoContributions :=
    viewer.contributionsCollection.commitContributionsByRepository.map
      fun item =>
        { repo := item.repository.name,
          fullName := some item.repository.nameWithOwner,
          count := item.contributionsTotalCount,
          isPrivate := item.repository.isPrivate,
          stars := item.repository.stargazerCount,
          forks := item.repository.forkCount,
          language := Option.map LangNode.name item.repository.primaryLanguage,
          description := item.repository.description,
          url := some item.repository.url : RepoContribution }
  { username := viewer.login,
    avatarUrl := some viewer.avatarUrl,
    bio := viewer.bio,
    company := viewer.company,
    location := viewer.location,
    followers := viewer.followers,
    following := viewer.following,
    publicRepos := publicRepos.length,
    privateRepos := privateRepos.length,
    totalRepos := viewer.repositoriesTotalCount,
    totalContributions := viewer.contributionsCollection.calendarTotal,
    totalCommits := viewer.contributionsCollection.totalCommitContributions,
    pullRequests := viewer.contributionsCollection.totalPullRequestContributions,
    pullRequestReviews := viewer.contributionsCollection.totalPullRequestReviewContributions,
    issues := viewer.contributionsCollection.totalIssueContributions,
    dailyContributions := dailyContributions,
    repositoryContributions :=
      List.insertionSort (fun a b => b.count ≤ a.count) repoContributions,
    languageStats := languageStats allRepos,
    organizations := viewer.organizations }

/-- Python truthiness of the optional token string: None and the empty
string are falsy (the code tests if not token). -/
def isBlank : Option String → Bool
  | none => true
  | some s => s = ""

/-- fetch_user_contributions (github.py lines 48-58): dispatch on the
credential; without one the restricted REST path is used, with one the
GraphQL path.  events and viewer are the abstract upstream responses of the
two paths. -/
def fetchUserContributions (username : String) (tok : Option String)
    (startDay endDay : Int) (events : List RestEvent) (viewer : Viewer) :
    RawData :=
  if isBlank tok then fetchWithRestApi username startDay endDay events
  else fetchWithGraphql username viewer

/-! Embedding of the orchestration in get_yearbook_stats
(backend/app/api/routes.py lines 263-428). -/

/-- A persisted YearbookStats row, keyed by (username, year).  updatedAt is
the freshness anchor compared against the upstream probe. -/
structure YearbookStatsRow where
  username : String
  year : Int
  avatarUrl : Option String
  bio : Option String
  company : Option String
  location : Option String
  followers : Nat
  following : Nat
  totalContributions : Nat
  totalCommits : Nat
  pullRequests : Nat
  pullRequestReviews : Nat
  issues : Nat
  longestStreak : Nat
  currentStreak : Nat
  activeDays : Nat
  repoCount : Nat
  publicRepoCount : Nat
  privateRepoCount : Nat
  totalRepoCount : Nat
  dailyContributions : List DayCount
  languageStats : List LangStatPct
  topRepos : List RepoContribution
  organizations : List Org
  updatedAt : Int
deriving DecidableEq, Repr

/-- Outcome of the freshness probe fetch_user_latest_push_time: it may raise
(error), return None, or return a timestamp.  Timestamps are integers with
the upstream ordering. -/
inductive ProbeOutcome where
  | ok (t : Option Int)
  | error
deriving DecidableEq, Repr

/-- Outcome of the full upstream fetch fetch_user_contributions: either the
raw data dict or a raised error with its message. -/
inductive FetchOutcome where
  | ok (d : RawData)
  | error (msg : String)
deriving DecidableEq, Repr

/-- Token resolution of routes.py lines 271-277: when the supplied token is
falsy (None or empty), look up the stored UserToken row for the username that
is marked is_valid and use its github_token; otherwise keep the supplied
token.  storedToken is the (github_token, is_valid) row of the token table
for this username, if any. -/
def resolveToken (tokenParam : Option String)
    (storedToken : Option (String × Bool)) : Option String :=
  if isBlank tokenParam then
    match storedToken with
    | some (t, true) => some t
    | _ => tokenParam
  else tokenParam

/-- Cache validity check of routes.py lines 287-296: the cache is valid when
the probe raised, returned None, or returned a timestamp not newer than the
record's updated_at. -/
def cacheIsValid (cached : YearbookStatsRow) (probeRes : ProbeOutcome) : Bool :=
  match probeRes with
  | .error => true
  | .ok none => true
  | .ok (some t) => t ≤ cached.updatedAt

/-- Construction of the fresh YearbookStats row from the fetched data
(routes.py lines 341-398), including the streak computations.  now models
the row's creation timestamp (the database default for updated_at). -/
def buildRow (username : String) (year : Int) (now : Int) (data : RawData) :
    YearbookStatsRow :=
  { username := username,
    year := year,
    avatarUrl := data.avatarUrl,
    bio := data.bio,
    company := data.company,
    location := data.location,
    followers := data.followers,
    following := data.following,
    totalContributions := data.totalContributions,
    totalCommits := data.totalCommits,
    pullRequests := data.pullRequests,
    pullRequestReviews := data.pullRequestReviews,
    issues := data.issues,
    longestStreak := longestStreak data.dailyContributions,
    currentStreak := currentStreak data.dailyContributions year,
    activeDays := (activeDays data.dailyContributions).length,
    repoCount := data.repositoryContributions.length,
    publicRepoCount := data.publicRepos,
    privateRepoCount := data.privateRepos,
    totalRepoCount := data.totalRepos,
    dailyContributions := data.dailyContributions,
    languageStats := data.languageStats,
    topRepos := data.repositoryContributions,
    organizations := data.organizations,
    updatedAt := now }

/-- The orchestration of get_yearbook_stats (routes.py lines 263-428) for one
(username, year) key.  Inputs: the supplied token, the stored token row, the
cached row for the key, and the probe and fetch behaviours as functions of
the credential they are invoked with.  Output: the final persisted state of
the key, and either the response dict (modelled as the row it renders plus
its cached flag) or the raised error. -/
def getYearbookStats (username : String) (year : Int)
    (tokenParam : Option String) (storedToken : Option (String × Bool))
    (cached : Option YearbookStatsRow)
    (probe : Option String → ProbeOutcome)
    (fetch : Option String → FetchOutcome) (now : Int) :
    Option YearbookStatsRow × Except String (YearbookStatsRow × Bool) :=
  let token := resolveToken tokenParam storedToken
  match cached with
  | some c =>
      if cacheIsValid c (probe token) then
        (some c, .ok (c, true))
      else
        match fetch token with
        | .error e => (none, .error e)
        | .ok data =>
            let row := buildRow username year now data
            (some row, .ok (row, false))
  | none =>
      match fetch token with
      | .error e => (none, .error e)
      | .ok data =>
          let row := buildRow username year now data
          (some row, .ok (row, false))

/-- A sample persisted row used to instantiate the orchestration theorems. -/
def exampleRow : YearbookStatsRow :=
  { username := "alice", year := 2024, avatarUrl := none, bio := none,
    company := none, location := none, followers := 0, following := 0,
    totalContributions := 6, totalCommits := 5, pullRequests := 0,
    pullRequestReviews := 0, issues := 0, longestStreak := 3,
    currentStreak := 0, activeDays := 5, repoCount := 1,
    publicRepoCount := 1, privateRepoCount := 0, totalRepoCount := 1,
    dailyContributions := exampleDaily, languageStats := [], topRepos := [],
    organizations := [], updatedAt := 100 }

/-- A viewer whose contribution calendar arrives with its days out of order;
the GraphQL path flattens it without sorting. -/
def outOfOrderViewer : Viewer :=
  { login := "alice", avatarUrl := "a", bio := none, company := none,
    location := none, followers := 0, following := 0,
    repositoriesTotalCount := 0, repositories := [],
    contributionsCollection :=
      { totalCommitContributions := 0, totalPullRequestContributions := 0,
        totalPullRequestReviewContributions := 0,
        totalIssueContributions := 0, calendarTotal := 2,
        weeks := [[⟨19724, 1⟩, ⟨19723, 1⟩]],
        commitContributionsByRepository := [] },
    organizations := [] }

/-- A viewer whose contribution calendar arrives in ascending day order. -/
def orderedViewer : Viewer :=
  { login := "alice", avatarUrl := "a", bio := none, company := none,
    location := none, followers := 0, following := 0,
    repositoriesTotalCount := 0, repositories := [],
    contributionsCollection :=
      { totalCommitContributions := 0, totalPullRequestContributions := 0,
        totalPullRequestReviewContributions := 0,
        totalIssueContributions := 0, calendarTotal := 2,
        weeks := [[⟨19723, 1⟩, ⟨19724, 1⟩]],
        commitContributionsByRepository := [] },
    organizations := [] }

instance : IsTotal LangStatPct fun a b => b.size ≤ a.size :=
  ⟨fun a b => le_total b.size a.size⟩

instance : IsTrans LangStatPct fun a b => b.size ≤ a.size :=
  ⟨fun _ _ _ hab hbc => le_trans hbc hab⟩

instance : IsTotal (Int × Nat) fun a b => a.1 ≤ b.1 :=
  ⟨fun a b => le_total a.1 b.1⟩

instance : IsTrans (Int × Nat) fun a b => a.1 ≤ b.1 :=
  ⟨fun _ _ _ hab hbc => le_trans hab hbc⟩

/-! Helper lemmas. -/

/-- The backward walk takes at most as many steps as its fuel allows. -/
theorem runDown_le (active : List Int) :
    ∀ (d : Int) (fuel : Nat), runDown active d fuel ≤ fuel
  | _, 0 => le_refl 0
  | d, fuel + 1 => by
      simp only [runDown]
      split
      · exact Nat.succ_le_succ (runDown_le active (d - 1) fuel)
      · exact Nat.zero_le _

/-- Folding the rest-api step over events none of which pass the push-in-range
filter leaves the maps unchanged. -/
theorem foldl_restStep_id (sd ed : Int) :
    ∀ (events : List RestEvent)
      (init : List (Int × Nat) × List (String × Nat)),
      (∀ e ∈ events, ¬ isPushInRange sd ed e) →
      events.foldl (restStep sd ed) init = init
  | [], _, _ => rfl
  | e :: es, init, h => by
      have he : ¬ isPushInRange sd ed e = true := h e (List.mem_cons_self e es)
      have hstep : restStep sd ed init e = init := by
        simp [restStep, he]
      rw [List.foldl_cons, hstep]
      exact foldl_restStep_id sd ed es init fun x hx => h x (List.mem_cons_of_mem e hx)

/-- Distributing the percentage formula over a sum of sizes. -/
theorem sum_map_pct (T : ℚ) : ∀ m : List LangStat,
    (m.map fun l => (l.size : ℚ) / T * 100).sum
      = (((m.map LangStat.size).sum : ℕ) : ℚ) / T * 100
  | [] => by simp
  | l :: ls => by
      simp only [List.map_cons, List.sum_cons, sum_map_pct T ls]
      push_cast
      ring

/-- The keys of a bumped map: unchanged when the key was present, the key
appended when it was new. -/
theorem bump_keys {α : Type} [DecidableEq α] (m : List (α × Nat)) (k : α)
    (v : Nat) :
    (bump m k v).map Prod.fst
      = if m.any fun p => p.1 = k then m.map Prod.fst
        else m.map Prod.fst ++ [k] := by
  unfold bump
  split
  · rw [List.map_map]
    apply List.map_congr_left
    intro p _
    by_cases h : p.1 = k <;> simp [h]
  · simp

/-- Bumping preserves distinctness of the map's keys. -/
theorem bump_nodup {α : Type} [DecidableEq α] {m : List (α × Nat)}
    (h : (m.map Prod.fst).Nodup) (k : α) (v : Nat) :
    ((bump m k v).map Prod.fst).Nodup := by
  rw [bump_keys]
  split
  · exact h
  · rename_i hany
    have hk : k ∉ m.map Prod.fst := by
      intro hmem
      obtain ⟨p, hp, hpk⟩ := List.mem_map.1 hmem
      have : m.any (fun p => p.1 = k) = true := List.any_eq_true.2 ⟨p, hp, by simp [hpk]⟩
      exact absurd this (by simp [hany])
    rw [List.nodup_append]
    refine ⟨h, List.nodup_singleton k, ?_⟩
    intro a ha hak
    rw [List.mem_singleton] at hak
    exact hk (hak ▸ ha)

/-- The daily map built by the rest-api event loop has distinct date keys. -/
theorem restFold_daily_nodup (sd ed : Int) (events : List RestEvent) :
    ((restFold sd ed events).1.map Prod.fst).Nodup := by
  suffices h : ∀ init : List (Int × Nat) × List (String × Nat),
      (init.1.map Prod.fst).Nodup →
      ((events.foldl (restStep sd ed) init).1.map Prod.fst).Nodup by
    exact h ([], []) (by simp)
  induction events with
  | nil => exact fun init h => h
  | cons e es ih =>
      intro init h
      rw [List.foldl_cons]
      apply ih
      unfold restStep
      split
      · exact bump_nodup h _ _
      · exact h

/-- Unfolding step of the backward walk on an active day. -/
theorem runDown_succ_mem {active : List Int} {d : Int} (h : d ∈ active)
    (f : Nat) : runDown active d (f + 1) = runDown active (d - 1) f + 1 := by
  simp [runDown, h]

/-- Unfolding step of the backward walk on an inactive day. -/
theorem runDown_succ_not_mem {active : List Int} {d : Int} (h : d ∉ active)
    (f : Nat) : runDown active d (f + 1) = 0 := by
  simp [runDown, h]

/-- Every step of the backward walk lands on an active day. -/
theorem runDown_mem (active : List Int) : ∀ (fuel : Nat) (d : Int) (k : Nat),
    k < runDown active d fuel → d - (k : Int) ∈ active
  | 0, d, k, h => absurd h (by simp [runDown])
  | fuel + 1, d, k, h => by
      by_cases hd : d ∈ active
      · rw [runDown_succ_mem hd] at h
        cases k with
        | zero => simpa using hd
        | succ k =>
            have hmem := runDown_mem active fuel (d - 1) k (by omega)
            have harith : d - ((k + 1 : Nat) : Int) = d - 1 - (k : Int) := by
              push_cast
              ring
            rw [harith]
            exact hmem
      · rw [runDown_succ_not_mem hd] at h
        omega

/-- Once the backward walk stops before exhausting its fuel, adding fuel
does not change its value. -/
theorem runDown_stable (active : List Int) : ∀ (f : Nat) (d : Int),
    runDown active d (f + 1) ≤ f → runDown active d f = runDown active d (f + 1)
  | 0, d, h => by
      by_cases hd : d ∈ active
      · rw [runDown_succ_mem hd] at h
        omega
      · rw [runDown_succ_not_mem hd]
        rfl
  | f + 1, d, h => by
      by_cases hd : d ∈ active
      · rw [runDown_succ_mem hd] at h ⊢
        rw [runDown_succ_mem hd]
        have := runDown_stable active f (d - 1) (by omega)
        omega
      · rw [runDown_succ_not_mem hd, runDown_succ_not_mem hd]

/-- The backward walk never exceeds the length of the active list: its steps
visit distinct days, all of them members of the list. -/
theorem runDown_le_length (active : List Int) (d : Int)
    (fuel : Nat) : runDown active d fuel ≤ active.length := by
  have hsub : ((List.range (runDown active d fuel)).map
      fun k : Nat => d - (k : Int)) ⊆ active := by
    intro x hx
    obtain ⟨k, hk, rfl⟩ := List.mem_map.1 hx
    exact runDown_mem active fuel d k (List.mem_range.1 hk)
  have hnd2 : (((List.range (runDown active d fuel)).map
      fun k : Nat => d - (k : Int))).Nodup := by
    refine List.Nodup.map ?_ (List.nodup_range _)
    intro k₁ k₂ hk
    have hk' : d - (k₁ : Int) = d - (k₂ : Int) := hk
    omega
  have hlen := (List.subperm_of_subset hnd2 hsub).length_le
  simpa using hlen

/-- An element of a list is bounded by the fold of max over it. -/
theorem le_foldr_max : ∀ {l : List Nat} {x : Nat}, x ∈ l → x ≤ l.foldr max 0
  | [], x, h => absurd h (List.not_mem_nil x)
  | y :: ys, x, h => by
      simp only [List.foldr_cons]
      rcases List.mem_cons.1 h with rfl | h'
      · exact le_max_left _ _
      · exact le_trans (le_foldr_max h') (le_max_right _ _)

/-- The fold of max over a list is bounded by any common bound. -/
theorem foldr_max_le : ∀ {l : List Nat} {b : Nat}, (∀ x ∈ l, x ≤ b) →
    l.foldr max 0 ≤ b
  | [], b, _ => Nat.zero_le b
  | x :: xs, b, h => by
      simp only [List.foldr_cons]
      exact max_le (h x (List.mem_cons_self x xs))
        (foldr_max_le fun y hy => h y (List.mem_cons_of_mem x hy))

/-- The run ending at a member of active never exceeds the spec-side
longest-streak value. -/
theorem downRunFull_le_specLongest {active : List Int} {q : Int}
    (hq : q ∈ active) : downRunFull active q ≤ specLongest active :=
  le_foldr_max (List.mem_map_of_mem (downRunFull active) hq)

/-- The accumulators are a lower bound for the result of the streak scan. -/
theorem le_streakLoop : ∀ (l : List Int) (L s : Nat) (p : Option Int),
    max L s ≤ streakLoop l L s p
  | [], _, _, _ => le_refl _
  | cur :: rest, L, s, p => by
      cases p with
      | none =>
          simp only [streakLoop]
          exact le_trans (le_max_left _ 1)
            (le_streakLoop rest (max L s) 1 (some cur))
      | some q =>
          simp only [streakLoop]
          split
          · exact le_trans (max_le_max (le_refl L) (Nat.le_succ s))
              (le_streakLoop rest L (s + 1) (some cur))
          · exact le_trans (le_max_left _ 1)
              (le_streakLoop rest (max L s) 1 (some cur))

/-- When a strictly sorted list starts with a run of c consecutive days all
of which it contains, and the scan enters it having just seen the day before
the run, the scan result is at least the carried streak plus c. -/
theorem streakLoop_run : ∀ (c : Nat) (l : List Int) (L s : Nat) (b : Int),
    List.Pairwise (· < ·) l →
    (∀ k : Nat, k < c → b + (k : Int) ∈ l) →
    (∀ y ∈ l, b ≤ y) →
    s + c ≤ streakLoop l L s (some (b - 1))
  | 0, l, L, s, b, _, _, _ => by
      simpa using le_trans (le_max_right L s) (le_streakLoop l L s (some (b - 1)))
  | c + 1, l, L, s, b, hpw, hrun, hge => by
      have hb : b ∈ l := by simpa using hrun 0 (Nat.succ_pos c)
      cases l with
      | nil => exact absurd hb (List.not_mem_nil b)
      | cons y l' =>
          have hy : y = b := by
            rcases List.mem_cons.1 hb with h | h
            · exact h.symm
            · have h1 : y < b := (List.pairwise_cons.1 hpw).1 b h
              have h2 : b ≤ y := hge y (List.mem_cons_self y l')
              omega
          subst hy
          simp only [streakLoop]
          rw [if_pos (by ring : y - (y - 1) = 1)]
          have hrun' : ∀ k : Nat, k < c → (y + 1) + (k : Int) ∈ l' := by
            intro k hk
            have hmem := hrun (k + 1) (by omega)
            rcases List.mem_cons.1 hmem with h | h
            · exfalso
              have : y + ((k + 1 : Nat) : Int) = y := h
              push_cast at this
              omega
            · have harith : y + ((k + 1 : Nat) : Int) = (y + 1) + (k : Int) := by
                push_cast
                ring
              rw [harith] at h
              exact h
          have hge' : ∀ z ∈ l', y + 1 ≤ z := by
            intro z hz
            have := (List.pairwise_cons.1 hpw).1 z hz
            omega
          have hrec := streakLoop_run c l' L (s + 1) (y + 1)
            (List.pairwise_cons.1 hpw).2 hrun' hge'
          rw [(by ring : y + (1 : Int) - 1 = y)] at hrec
          omega

/-- The streak scan of a strictly sorted list is at least the length of any
run of consecutive days the list contains, whatever the accumulators. -/
theorem streakLoop_ge_of_run : ∀ (l : List Int),
    List.Pairwise (· < ·) l →
    ∀ (c : Nat) (a : Int), (∀ k : Nat, k < c → a + (k : Int) ∈ l) →
    ∀ (L s : Nat) (p : Option Int), c ≤ streakLoop l L s p
  | [], _, c, a, hrun, L, s, p => by
      cases c with
      | zero => exact Nat.zero_le _
      | succ c =>
          have := hrun 0 (Nat.succ_pos c)
          simp at this
  | x :: rest, hpw, c, a, hrun, L, s, p => by
      cases c with
      | zero => exact Nat.zero_le _
      | succ c =>
          have ha : a ∈ x :: rest := by simpa using hrun 0 (Nat.succ_pos c)
          rcases List.mem_cons.1 ha with hax | har
          · subst hax
            have key : ∀ (L' s' : Nat), 1 ≤ s' →
                c + 1 ≤ streakLoop rest L' s' (some a) := by
              intro L' s' hs'
              have hrun' : ∀ k : Nat, k < c → (a + 1) + (k : Int) ∈ rest := by
                intro k hk
                have hmem := hrun (k + 1) (by omega)
                rcases List.mem_cons.1 hmem with h | h
                · exfalso
                  have : a + ((k + 1 : Nat) : Int) = a := h
                  push_cast at this
                  omega
                · have harith : a + ((k + 1 : Nat) : Int) = (a + 1) + (k : Int) := by
                    push_cast
                    ring
                  rw [harith] at h
                  exact h
              have hge' : ∀ z ∈ rest, a + 1 ≤ z := by
                intro z hz
                have := (List.pairwise_cons.1 hpw).1 z hz
                omega
              have hrec := streakLoop_run c rest L' s' (a + 1)
                (List.pairwise_cons.1 hpw).2 hrun' hge'
              rw [(by ring : a + (1 : Int) - 1 = a)] at hrec
              omega
            cases p with
            | none =>
                simp only [streakLoop]
                exact key (max L s) 1 (le_refl 1)
            | some q =>
                simp only [streakLoop]
                split
                · exact key L (s + 1) (by omega)
                · exact key (max L s) 1 (le_refl 1)
          · have hrun' : ∀ k : Nat, k < c + 1 → a + (k : Int) ∈ rest := by
              intro k hk
              rcases List.mem_cons.1 (hrun k hk) with h | h
              · exfalso
                have hxa : x < a := (List.pairwise_cons.1 hpw).1 a har
                omega
              · exact h
            cases p with
            | none =>
                simp only [streakLoop]
                exact streakLoop_ge_of_run rest (List.pairwise_cons.1 hpw).2
                  (c + 1) a hrun' _ _ _
            | some q =>
                simp only [streakLoop]
                split
                · exact streakLoop_ge_of_run rest (List.pairwise_cons.1 hpw).2
                    (c + 1) a hrun' _ _ _
                · exact streakLoop_ge_of_run rest (List.pairwise_cons.1 hpw).2
                    (c + 1) a hrun' _ _ _

/-- Sorting a duplicate-free list ascending yields a strictly increasing
list. -/
theorem sorted_strict_of_nodup {active : List Int} (h : active.Nodup) :
    List.Pairwise (· < ·)
      (List.insertionSort (fun a b => a ≤ b) active) := by
  have hs : List.Pairwise (fun a b : Int => a ≤ b)
      (List.insertionSort (fun a b => a ≤ b) active) :=
    List.sorted_insertionSort _ _
  have hn : (List.insertionSort (fun a b => a ≤ b) active).Nodup :=
    (List.perm_insertionSort _ _).nodup_iff.2 h
  exact (List.Pairwise.and hs hn).imp fun hh => lt_of_le_of_ne hh.1 hh.2

/-- Every day counted by the current-streak walk is active, expressed from
the walk's base day (the end boundary itself if active, else the previous
day). -/
theorem currentStreakFrom_run (active : List Int) (endD : Int) :
    ∀ k : Nat, k < currentStreakFrom active endD →
      (if endD ∈ active then endD else endD - 1) - (k : Int) ∈ active := by
  intro k hk
  unfold currentStreakFrom at hk
  by_cases hd : endD ∈ active
  · rw [if_pos hd] at hk ⊢
    cases k with
    | zero => simpa using hd
    | succ k =>
        have hmem := runDown_mem active 364 (endD - 1) k (by omega)
        have harith : endD - ((k + 1 : Nat) : Int) = endD - 1 - (k : Int) := by
          push_cast
          ring
        rw [harith]
        exact hmem
  · rw [if_neg hd] at hk ⊢
    exact runDown_mem active 364 (endD - 1) k hk

/-- The current streak counted from any end boundary is bounded by the
longest-streak scan of the sorted active days, provided the active days are
distinct. -/
theorem currentStreakFrom_le_streakLoop (active : List Int)
    (hnd : active.Nodup) (endD : Int) :
    currentStreakFrom active endD
      ≤ streakLoop (List.insertionSort (fun a b => a ≤ b) active) 0 0 none := by
  apply streakLoop_ge_of_run _ (sorted_strict_of_nodup hnd)
    (currentStreakFrom active endD)
    ((if endD ∈ active then endD else endD - 1)
      - ((currentStreakFrom active endD - 1 : Nat) : Int))
  intro k hk
  rw [List.mem_insertionSort]
  have hmem := currentStreakFrom_run active endD
    (currentStreakFrom active endD - 1 - k) (by omega)
  have harith :
      (if endD ∈ active then endD else endD - 1)
          - ((currentStreakFrom active endD - 1 : Nat) : Int) + (k : Int)
        = (if endD ∈ active then endD else endD - 1)
          - ((currentStreakFrom active endD - 1 - k : Nat) : Int) := by
    omega
  rw [harith]
  exact hmem

/-- The streak scan never exceeds the spec-side longest streak: invariant
form, scanning the remaining sorted days with a carried streak that is a run
ending at the previously seen day q. -/
theorem streakLoop_le_spec (active : List Int) (hnd : active.Nodup) :
    ∀ (rest : List Int), List.Pairwise (· < ·) rest →
      (∀ x ∈ rest, x ∈ active) →
      ∀ (L s : Nat) (q : Int), q ∈ active → (∀ x ∈ rest, q < x) →
      s ≤ downRunFull active q → L ≤ specLongest active →
      streakLoop rest L s (some q) ≤ specLongest active
  | [], _, _, L, s, q, hq, _, hs, hL => by
      simp only [streakLoop]
      exact max_le hL (le_trans hs (downRunFull_le_specLongest hq))
  | x :: rest', hpw, hmem, L, s, q, hq, hgt, hs, hL => by
      have hx : x ∈ active := hmem x (List.mem_cons_self x rest')
      have hxq : q < x := hgt x (List.mem_cons_self x rest')
      have hmem' : ∀ z ∈ rest', z ∈ active :=
        fun z hz => hmem z (List.mem_cons_of_mem x hz)
      have hgt' : ∀ z ∈ rest', x < z :=
        fun z hz => (List.pairwise_cons.1 hpw).1 z hz
      simp only [streakLoop]
      split
      · rename_i hone
        have hstep : downRunFull active x
            = runDown active q active.length + 1 := by
          unfold downRunFull
          rw [runDown_succ_mem hx]
          rw [(by omega : x - (1 : Int) = q)]
        have htrunc : runDown active q active.length
            = downRunFull active q := by
          unfold downRunFull
          exact runDown_stable active active.length q
            (runDown_le_length active q (active.length + 1))
        have hs' : s + 1 ≤ downRunFull active x := by omega
        exact streakLoop_le_spec active hnd rest'
          (List.pairwise_cons.1 hpw).2 hmem' L (s + 1) x hx hgt' hs' hL
      · have h1 : 1 ≤ downRunFull active x := by
          unfold downRunFull
          rw [runDown_succ_mem hx]
          omega
        exact streakLoop_le_spec active hnd rest'
          (List.pairwise_cons.1 hpw).2 hmem' (max L s) 1 x hx hgt' h1
          (max_le hL (le_trans hs (downRunFull_le_specLongest hq)))

/-- The streak scan of the sorted duplicate-free active days equals the
spec-side maximum run length. -/
theorem streakLoop_eq_spec (active : List Int) (hnd : active.Nodup) :
    streakLoop (List.insertionSort (fun a b => a ≤ b) active) 0 0 none
      = specLongest active := by
  apply le_antisymm
  · rcases hsort : List.insertionSort (fun a b => a ≤ b) active with _ | ⟨x, rest⟩
    · simp [streakLoop]
    · have hpw : List.Pairwise (· < ·) (x :: rest) :=
        hsort ▸ sorted_strict_of_nodup hnd
      have hmem : ∀ y ∈ x :: rest, y ∈ active := by
        intro y hy
        rw [← List.mem_insertionSort (fun a b : Int => a ≤ b), hsort]
        exact hy
      have hx : x ∈ active := hmem x (List.mem_cons_self x rest)
      simp only [streakLoop]
      apply streakLoop_le_spec active hnd rest (List.pairwise_cons.1 hpw).2
        (fun z hz => hmem z (List.mem_cons_of_mem x hz)) (max 0 0) 1 x hx
        (fun z hz => (List.pairwise_cons.1 hpw).1 z hz)
      · unfold downRunFull
        rw [runDown_succ_mem hx]
        omega
      · exact Nat.zero_le _
  · apply foldr_max_le
    intro v hv
    obtain ⟨d, hd, rfl⟩ := List.mem_map.1 hv
    apply streakLoop_ge_of_run _ (sorted_strict_of_nodup hnd)
      (downRunFull active d) (d - ((downRunFull active d - 1 : Nat) : Int))
    intro k hk
    rw [List.mem_insertionSort]
    have hmem := runDown_mem active (active.length + 1) d
      (downRunFull active d - 1 - k) (by unfold downRunFull at hk ⊢; omega)
    have harith : d - ((downRunFull active d - 1 : Nat) : Int) + (k : Int)
        = d - ((downRunFull active d - 1 - k : Nat) : Int) := by
      omega
    rw [harith]
    exact hmem

/-- Distinct dates in the daily series give distinct active dates. -/
theorem activeDates_nodup {daily : List DayCount}
    (h : (daily.map DayCount.date).Nodup) : (activeDates daily).Nodup := by
  have hsub : List.Sublist (activeDates daily) (daily.map DayCount.date) :=
    (List.filter_sublist daily).map DayCount.date
  exact List.Nodup.sublist hsub h

/-! Claim theorems. -/

/-- C1: with a cached record present, a probe that raises, returns None, or
returns a timestamp not newer than the record's updated_at serves the cached
record unchanged, tagged cached = true, with the fetch never consulted; a
probe timestamp strictly newer than updated_at deletes the record and runs
the full fetch-and-store cycle, whose result is tagged cached = false. -/
theorem cache_freshness_policy (u : String) (y : Int) (tp : Option String)
    (st : Option (String × Bool)) (c : YearbookStatsRow)
    (probe : Option String → ProbeOutcome) (now : Int) :
    ((probe (resolveToken tp st) = .error ∨
        probe (resolveToken tp st) = .ok none ∨
        (∃ t, probe (resolveToken tp st) = .ok (some t) ∧ t ≤ c.updatedAt)) →
      ∀ fetch, getYearbookStats u y tp st (some c) probe fetch now
        = (some c, .ok (c, true))) ∧
    (∀ t d fetch, probe (resolveToken tp st) = .ok (some t) →
      c.updatedAt < t → fetch (resolveToken tp st) = .ok d →
      getYearbookStats u y tp st (some c) probe fetch now
        = (some (buildRow u y now d), .ok (buildRow u y now d, false))) := by
  constructor
  · intro h fetch
    rcases h with h | h | ⟨t, ht, hle⟩
    · simp [getYearbookStats, cacheIsValid, h]
    · simp [getYearbookStats, cacheIsValid, h]
    · simp [getYearbookStats, cacheIsValid, ht, hle]
  · intro t d fetch ht hlt hf
    have hinvalid : cacheIsValid c (probe (resolveToken tp st)) = false := by
      simp only [cacheIsValid, ht]
      simpa using not_le.mpr hlt
    simp [getYearbookStats, hinvalid, hf]

/-- C1 witness: a probe returning None serves the sample cached row. -/
theorem cache_freshness_policy_witness :
    getYearbookStats "alice" 2024 none none (some exampleRow)
      (fun _ => .ok none) (fun _ => .error "down") 0
      = (some exampleRow, .ok (exampleRow, true)) :=
  (cache_freshness_policy "alice" 2024 none none exampleRow
      (fun _ => .ok none) 0).1 (Or.inr (Or.inl rfl)) _

/-- C6: when the fetch fails after a stale cache entry was invalidated, or on
a plain miss, the error is surfaced, nothing is persisted, and the old record
is not restored: the key ends up absent. -/
theorem fetch_failure_leaves_key_absent (u : String) (y : Int)
    (tp : Option String) (st : Option (String × Bool))
    (probe : Option String → ProbeOutcome)
    (fetch : Option String → FetchOutcome) (now : Int) (msg : String) :
    (∀ c t, probe (resolveToken tp st) = .ok (some t) → c.updatedAt < t →
      fetch (resolveToken tp st) = .error msg →
      getYearbookStats u y tp st (some c) probe fetch now
        = (none, .error msg)) ∧
    (fetch (resolveToken tp st) = .error msg →
      getYearbookStats u y tp st none probe fetch now
        = (none, .error msg)) := by
  constructor
  · intro c t ht hlt hf
    have hinvalid : cacheIsValid c (probe (resolveToken tp st)) = false := by
      simp only [cacheIsValid, ht]
      simpa using not_le.mpr hlt
    simp [getYearbookStats, hinvalid, hf]
  · intro hf
    simp [getYearbookStats, hf]

/-- C6 witness: a stale cache entry followed by a failing fetch leaves the
key absent and surfaces the error. -/
theorem fetch_failure_leaves_key_absent_witness :
    getYearbookStats "alice" 2024 none none (some exampleRow)
      (fun _ => .ok (some 200)) (fun _ => .error "down") 0
      = (none, .error "down") :=
  (fetch_failure_leaves_key_absent "alice" 2024 none none
      (fun _ => .ok (some 200)) (fun _ => .error "down") 0 "down").1
    exampleRow 200 rfl (by decide) rfl

/-- C10: a falsy supplied token resolves to a stored token marked valid when
one exists and stays unauthenticated otherwise, and the orchestration
consults the probe and the fetch only at that resolved credential. -/
theorem stored_token_resolution :
    (∀ t : String, resolveToken none (some (t, true)) = some t) ∧
    resolveToken none none = none ∧
    (∀ t : String, resolveToken none (some (t, false)) = none) ∧
    (∀ u y tp st cached probe probe' fetch fetch' now,
      probe (resolveToken tp st) = probe' (resolveToken tp st) →
      fetch (resolveToken tp st) = fetch' (resolveToken tp st) →
      getYearbookStats u y tp st cached probe fetch now
        = getYearbookStats u y tp st cached probe' fetch' now) ∧
    (∀ u sd ed events viewer,
      fetchUserContributions u none sd ed events viewer
        = fetchWithRestApi u sd ed events) := by
  refine ⟨fun t => rfl, rfl, fun t => rfl, ?_, fun u sd ed events viewer => rfl⟩
  intro u y tp st cached probe probe' fetch fetch' now hp hf
  simp only [getYearbookStats, hp, hf]

/-- C10 witness: with no supplied token and a stored valid token, two
probe/fetch pairs agreeing at that stored token produce identical runs. -/
theorem stored_token_resolution_witness :
    getYearbookStats "alice" 2024 none (some ("tok", true)) none
      (fun _ => .ok none) (fun _ => .error "down") 0
      = getYearbookStats "alice" 2024 none (some ("tok", true)) none
          (fun o => if isBlank o then .error else .ok none)
          (fun o => if isBlank o then .ok { username := "alice" }
                    else .error "down") 0 :=
  stored_token_resolution.2.2.2.1 "alice" 2024 none (some ("tok", true)) none
    _ _ _ _ 0 (by decide) (by decide)

/-- C2 counterexample: for the specification's concrete scenario with the
end boundary on the inactive day 2024-01-03, the code computes a current
streak of 2 (the day-0 miss is tolerated and Jan 2 and Jan 1 are counted),
not 0 as the claim states. -/
theorem current_streak_jan3_cex :
    currentStreakFrom (activeDates exampleDaily) (daysFromCivil 2024 1 3) = 2 ∧
    currentStreakFrom (activeDates exampleDaily) (daysFromCivil 2024 1 3) ≠ 0 := by
  decide

/-- C2 amended: the current streak walks backward from the end boundary,
tolerates a miss only on the first day, stops at any later miss, and is
bounded by 365; on the concrete scenario the end boundary Jan 6 gives 3 and
the inactive end boundary Jan 3 gives 2 (not 0): after the tolerated day-0
miss the walk counts Jan 2 and Jan 1. -/
theorem current_streak_amended :
    currentStreakFrom (activeDates exampleDaily) (daysFromCivil 2024 1 6) = 3 ∧
    currentStreakFrom (activeDates exampleDaily) (daysFromCivil 2024 1 3) = 2 ∧
    (∀ active endD, endD ∈ active →
      currentStreakFrom active endD = 1 + runDown active (endD - 1) 364) ∧
    (∀ active endD, endD ∉ active →
      currentStreakFrom active endD = runDown active (endD - 1) 364) ∧
    (∀ active d fuel, d ∉ active → runDown active d (fuel + 1) = 0) ∧
    (∀ active d fuel, d ∈ active →
      runDown active d (fuel + 1) = runDown active (d - 1) fuel + 1) ∧
    (∀ active endD, currentStreakFrom active endD ≤ 365) ∧
    (∀ daily year, currentStreak daily year
      = currentStreakFrom (activeDates daily) (daysFromCivil year 12 31)) := by
  refine ⟨by decide, by decide, ?_, ?_, ?_, ?_, ?_, fun daily year => rfl⟩
  · intro active endD h
    simp [currentStreakFrom, h]
  · intro active endD h
    simp [currentStreakFrom, h]
  · intro active d fuel h
    simp [runDown, h]
  · intro active d fuel h
    simp [runDown, h]
  · intro active endD
    unfold currentStreakFrom
    split
    · have := runDown_le active (endD - 1) 364
      omega
    · exact le_trans (runDown_le active (endD - 1) 364) (by norm_num)

/-- C2 amended witness: the membership branch of the walk at a concrete
active set. -/
theorem current_streak_amended_witness :
    currentStreakFrom [(19728 : Int)] 19728
      = 1 + runDown [(19728 : Int)] (19728 - 1) 364 :=
  current_streak_amended.2.2.1 [(19728 : Int)] 19728 (by decide)

/-- C5: the unauthenticated fetch always reports zero pull requests, reviews
and issues and empty (present) language and organization lists, and with no
public push events in range it additionally reports zero commits and empty
daily and repository contributions without failing. -/
theorem rest_api_shape (u : String) (sd ed : Int) (events : List RestEvent) :
    (fetchWithRestApi u sd ed events).pullRequests = 0 ∧
    (fetchWithRestApi u sd ed events).pullRequestReviews = 0 ∧
    (fetchWithRestApi u sd ed events).issues = 0 ∧
    (fetchWithRestApi u sd ed events).languageStats = [] ∧
    (fetchWithRestApi u sd ed events).organizations = [] ∧
    ((∀ e ∈ events, ¬ isPushInRange sd ed e) →
      (fetchWithRestApi u sd ed events).totalCommits = 0 ∧
      (fetchWithRestApi u sd ed events).dailyContributions = [] ∧
      (fetchWithRestApi u sd ed events).repositoryContributions = []) := by
  refine ⟨rfl, rfl, rfl, rfl, rfl, ?_⟩
  intro h
  have hfold : restFold sd ed events = ([], []) := foldl_restStep_id sd ed events ([], []) h
  refine ⟨?_, ?_, ?_⟩ <;> simp [fetchWithRestApi, hfold]

/-- C5 witness: one non-push event in range produces the empty successful
result. -/
theorem rest_api_shape_witness :
    (fetchWithRestApi "bob" 19723 20088
        [⟨"IssuesEvent", ⟨19724, 10⟩, "proj", 2⟩]).totalCommits = 0 ∧
    (fetchWithRestApi "bob" 19723 20088
        [⟨"IssuesEvent", ⟨19724, 10⟩, "proj", 2⟩]).dailyContributions = [] ∧
    (fetchWithRestApi "bob" 19723 20088
        [⟨"IssuesEvent", ⟨19724, 10⟩, "proj", 2⟩]).repositoryContributions = [] :=
  (rest_api_shape "bob" 19723 20088
      [⟨"IssuesEvent", ⟨19724, 10⟩, "proj", 2⟩]).2.2.2.2.2 (by decide)

/-- C8: the authenticated fetch queries the viewer owned by the credential:
its result is independent of the requested subject, and the returned
username, profile and organization data are the token owner's. -/
theorem graphql_queries_token_owner (u u' : String) (v : Viewer) :
    fetchWithGraphql u v = fetchWithGraphql u' v ∧
    (fetchWithGraphql u v).username = v.login ∧
    (fetchWithGraphql u v).avatarUrl = some v.avatarUrl ∧
    (fetchWithGraphql u v).bio = v.bio ∧
    (fetchWithGraphql u v).followers = v.followers ∧
    (fetchWithGraphql u v).organizations = v.organizations :=
  ⟨rfl, rfl, rfl, rfl, rfl, rfl⟩

/-- C4: every reported percentage is the language's accumulated size divided
by the total size times 100 when the total is positive; the percentages sum
to exactly 100 in that case and are all 0 when the total is 0 (the division
falls back to the guard value 1, never dividing by zero); and the list is
sorted descending by size. -/
theorem language_stats_spec (repos : List RepoNode) :
    (∀ x ∈ languageStats repos,
      ((buildLangMap repos).map LangStat.size).sum ≠ 0 →
      x.percentage
        = (x.size : ℚ) / ((((buildLangMap repos).map LangStat.size).sum : ℕ) : ℚ)
            * 100) ∧
    (((buildLangMap repos).map LangStat.size).sum ≠ 0 →
      ((languageStats repos).map LangStatPct.percentage).sum = 100) ∧
    (((buildLangMap repos).map LangStat.size).sum = 0 →
      ∀ x ∈ languageStats repos, x.percentage = 0) ∧
    (languageStats repos).Pairwise fun a b => b.size ≤ a.size := by
  unfold languageStats
  refine ⟨?_, ?_, ?_, List.sorted_insertionSort _ _⟩
  · intro x hx hne
    rw [List.mem_insertionSort] at hx
    obtain ⟨l, hl, rfl⟩ := List.mem_map.1 hx
    have htot : totalSizeOr1 (buildLangMap repos)
        = ((buildLangMap repos).map LangStat.size).sum := by
      simp [totalSizeOr1, hne]
    simp [htot]
  · intro hne
    have hperm := (List.perm_insertionSort
      (fun a b : LangStatPct => b.size ≤ a.size)
      ((buildLangMap repos).map fun l =>
        { name := l.name, color := l.color, size := l.size,
          repoCount := l.repoCount,
          percentage :=
            (l.size : ℚ) / ((totalSizeOr1 (buildLangMap repos) : ℕ) : ℚ) * 100
          : LangStatPct })).map LangStatPct.percentage
    rw [hperm.sum_eq, List.map_map]
    have hcomp :
        (LangStatPct.percentage ∘ fun l : LangStat =>
          { name := l.name, color := l.color, size := l.size,
            repoCount := l.repoCount,
            percentage :=
              (l.size : ℚ) / ((totalSizeOr1 (buildLangMap repos) : ℕ) : ℚ) * 100
            : LangStatPct })
          = fun l : LangStat =>
              (l.size : ℚ) / ((totalSizeOr1 (buildLangMap repos) : ℕ) : ℚ) * 100 :=
      rfl
    rw [hcomp, sum_map_pct]
    have htot : totalSizeOr1 (buildLangMap repos)
        = ((buildLangMap repos).map LangStat.size).sum := by
      simp [totalSizeOr1, hne]
    rw [htot, div_self (by exact_mod_cast hne), one_mul]
  · intro h0 x hx
    rw [List.mem_insertionSort] at hx
    obtain ⟨l, hl, rfl⟩ := List.mem_map.1 hx
    have hsz : l.size = 0 :=
      List.sum_eq_zero_iff.1 h0 l.size (List.mem_map_of_mem LangStat.size hl)
    simp [hsz]

/-- C4 witness: two languages of sizes 25 and 75 give percentages summing to
exactly 100. -/
theorem language_stats_spec_witness :
    ((languageStats
        [{ name := "r", nameWithOwner := "alice/r", isPrivate := false,
           stargazerCount := 0, forkCount := 0, description := none,
           url := "u", primaryLanguage := none,
           languages := [⟨25, ⟨"A", "#111111"⟩⟩, ⟨75, ⟨"B", "#222222"⟩⟩] }]).map
      LangStatPct.percentage).sum = 100 :=
  (language_stats_spec _).2.1 (by decide)

/-- C7 counterexample: the authenticated fetch keeps the upstream calendar
order, so an out-of-order raw calendar yields a dailyContributions sequence
whose dates are not strictly increasing. -/
theorem daily_contributions_unsorted_cex :
    ¬ ((fetchWithGraphql "alice" outOfOrderViewer).dailyContributions.Pairwise
        fun a b => a.date < b.date) := by
  decide

/-- C7 amended: the unauthenticated fetch always returns strictly increasing
daily contribution dates; the authenticated fetch returns exactly the
flattened upstream calendar in upstream order, so its dates are strictly
increasing whenever the upstream calendar's are. -/
theorem daily_contributions_ordering :
    (∀ (u : String) (sd ed : Int) (events : List RestEvent),
      ((fetchWithRestApi u sd ed events).dailyContributions).Pairwise
        fun a b => a.date < b.date) ∧
    (∀ (u : String) (v : Viewer),
      (fetchWithGraphql u v).dailyContributions
        = v.contributionsCollection.weeks.flatten.map
            fun day => DayCount.mk day.date day.contributionCount) ∧
    (∀ (u : String) (v : Viewer),
      (v.contributionsCollection.weeks.flatten.Pairwise
        fun a b => a.date < b.date) →
      ((fetchWithGraphql u v).dailyContributions).Pairwise
        fun a b => a.date < b.date) := by
  refine ⟨?_, fun u v => rfl, ?_⟩
  · intro u sd ed events
    show (((List.insertionSort (fun a b => a.1 ≤ b.1)
        (restFold sd ed events).1).map fun p => DayCount.mk p.1 p.2).Pairwise
        fun a b => a.date < b.date)
    rw [List.pairwise_map]
    have hsorted : ((List.insertionSort (fun a b : Int × Nat => a.1 ≤ b.1)
        (restFold sd ed events).1).Pairwise fun a b => a.1 ≤ b.1) :=
      List.sorted_insertionSort _ _
    have hnodup : (((List.insertionSort (fun a b : Int × Nat => a.1 ≤ b.1)
        (restFold sd ed events).1).map Prod.fst).Nodup) := by
      have hperm := (List.perm_insertionSort
        (fun a b : Int × Nat => a.1 ≤ b.1) (restFold sd ed events).1).map Prod.fst
      exact hperm.nodup_iff.2 (restFold_daily_nodup sd ed events)
    simp only [List.Nodup, List.pairwise_map] at hnodup
    exact (hsorted.and hnodup).imp fun h => lt_of_le_of_ne h.1 h.2
  · intro u v h
    show ((v.contributionsCollection.weeks.flatten.map
        fun day => DayCount.mk day.date day.contributionCount).Pairwise
        fun a b => a.date < b.date)
    rw [List.pairwise_map]
    exact h

/-- C7 amended witness: an in-order upstream calendar yields strictly
increasing dates on the authenticated path. -/
theorem daily_contributions_ordering_witness :
    ((fetchWithGraphql "alice" orderedViewer).dailyContributions.Pairwise
      fun a b => a.date < b.date) :=
  daily_contributions_ordering.2.2 "alice" orderedViewer (by decide)

/-- C3: for daily series with distinct dates the longest streak equals the
maximum length over maximal runs of calendar-consecutive active days, and on
the specification's concrete scenario it is 3 (the run Jan 4 to Jan 6). -/
theorem longest_streak_spec :
    (∀ daily : List DayCount, (daily.map DayCount.date).Nodup →
      longestStreak daily = specLongest (activeDates daily)) ∧
    longestStreak exampleDaily = 3 := by
  constructor
  · intro daily h
    exact streakLoop_eq_spec (activeDates daily) (activeDates_nodup h)
  · decide

/-- C3 witness: the concrete scenario instantiates the run-maximum
characterization. -/
theorem longest_streak_spec_witness :
    longestStreak exampleDaily = specLongest (activeDates exampleDaily) :=
  longest_streak_spec.1 exampleDaily (by decide)

/-- C9: for daily series with distinct dates, the current streak (the
backward suffix run counted from the year-end boundary) never exceeds the
longest streak. -/
theorem current_streak_le_longest_streak (daily : List DayCount) (year : Int)
    (h : (daily.map DayCount.date).Nodup) :
    currentStreak daily year ≤ longestStreak daily :=
  currentStreakFrom_le_streakLoop (activeDates daily) (activeDates_nodup h)
    (daysFromCivil year 12 31)

/-- C9 witness: the concrete scenario's current streak (3, matching its
longest streak) is bounded by the longest streak. -/
theorem current_streak_le_longest_streak_witness :
    currentStreak exampleDaily 2024 ≤ longestStreak exampleDaily :=
  current_streak_le_longest_streak exampleDaily 2024 (by decide)

end Yearbook
